import Mathlib

/-!
Verification of the pagination engine in `src/rxjs.ts` (`useScrolling` and
`switchLoadMore`) and its helper `notNil` from `src/util.ts`.

The two operators are shallowly embedded as explicit state machines driven by
event lists:

* `useScrolling` combines a reset stream and a scroll stream via
  `combineLatest`, keeping a mutable `page` counter.  We model the closure
  state (`page`, the latest value of each input, whether each input has fired)
  and process interleaved reset/scroll events one at a time, which is exactly
  the single-threaded, push-driven delivery order of the reactive engine.

* `switchLoadMore` keeps `defaultItems`, `data` and `prevPage` in a closure and
  pipes descriptors through `tap` (epoch re-initialisation), `filter`
  (admission gate) and `switchMap` (`merge(of(data), loadMoreFn(v).pipe(map ...))`
  with a trailing `catchError`).  We model the buffer as `List (Option D)`
  (`none` is the `undefined` placeholder), and the in-flight fetch of
  `switchMap` as an optional fetch identifier: an admitted descriptor installs
  a fresh identifier (cancelling the previous inner subscription, as
  `switchMap` does), and a resolution or failure event is delivered with the
  identifier of the fetch it belongs to — events carrying a cancelled
  identifier are ignored, which is precisely `switchMap` unsubscribing the
  stale inner observable.  Fetch streams are single-emission, as required of
  the caller by the contract of the fetch function.
-/

namespace Rxjs

universe u

/-- `notNil` from `src/util.ts`: `value !== null && value !== undefined`.
Nullable values are embedded as `Option`. -/
def notNil {α : Type u} : Option α → Bool
  | none => false
  | some _ => true

/-- A request descriptor `T & Pagination`: the `page` and `size` fields plus
the reset payload carried through from the reset stream. -/
structure Desc (T : Type) where
  page : Int
  size : Nat
  payload : T
deriving DecidableEq

/-! ### The cursor tracker `useScrolling` -/

/-- An event seen by `useScrolling`: an emission of `reset$` (with its payload)
or an emission of `scroll$` (payload irrelevant to the operator). -/
inductive ScrollEvent (T : Type) where
  | reset (t : T)
  | scroll
deriving DecidableEq

/-- The closure state of one `useScrolling` call: the mutable `page` counter
and the `combineLatest` bookkeeping (latest reset payload, whether `scroll$`
has fired yet). -/
structure ScrollState (T : Type) where
  page : Int
  lastReset : Option T
  scrollSeen : Bool
deriving DecidableEq

/-- One output descriptor of `useScrolling`, tagged with whether the emission
was triggered by the reset stream (instrumentation for stating epoch
properties; the tag is not part of the emitted value). -/
structure ScrollEmit (T : Type) where
  desc : Desc T
  viaReset : Bool
deriving DecidableEq

/-- The state of `useScrolling` before any input event: `page = startPage`,
neither input has produced a value. -/
def useScrollingInit {T : Type} (startPage : Int) : ScrollState T :=
  ⟨startPage, none, false⟩

/-- One delivery step of `useScrolling startPage size`.

A reset emission first runs `tap(() => (page = startPage))` and updates the
latest value of the first `combineLatest` slot; `combineLatest` then emits iff
the scroll slot already has a value.  A scroll emission updates the second
slot and emits iff the reset slot has a value.  Each `combineLatest` emission
goes through `map(([params]) => ({page, size, ...params}))` — modelled as the
`Desc` record — and then `tap(() => page++)`. -/
def useScrollingStep {T : Type} (startPage : Int) (size : Nat)
    (s : ScrollState T) : ScrollEvent T → ScrollState T × List (ScrollEmit T)
  | .reset t =>
      if s.scrollSeen then
        ({ page := startPage + 1, lastReset := some t, scrollSeen := true },
          [⟨⟨startPage, size, t⟩, true⟩])
      else
        ({ page := startPage, lastReset := some t, scrollSeen := false }, [])
  | .scroll =>
      match s.lastReset with
      | some t =>
          ({ s with page := s.page + 1, scrollSeen := true },
            [⟨⟨s.page, size, t⟩, false⟩])
      | none => ({ s with scrollSeen := true }, [])

/-- Run `useScrolling` over a list of input events, collecting all emitted
descriptors in order. -/
def useScrollingRun {T : Type} (startPage : Int) (size : Nat) :
    ScrollState T → List (ScrollEvent T) → ScrollState T × List (ScrollEmit T)
  | s, [] => (s, [])
  | s, e :: es =>
      ((useScrollingRun startPage size (useScrollingStep startPage size s e).1 es).1,
        (useScrollingStep startPage size s e).2 ++
          (useScrollingRun startPage size (useScrollingStep startPage size s e).1 es).2)

/-- Whether the event list contains at least one reset emission. -/
def hasReset {T : Type} (es : List (ScrollEvent T)) : Bool :=
  es.any fun e => match e with | .reset _ => true | .scroll => false

/-- Whether the event list contains at least one scroll emission. -/
def hasScroll {T : Type} (es : List (ScrollEvent T)) : Bool :=
  es.any fun e => match e with | .reset _ => false | .scroll => true

/-- Relation between consecutive emissions of `useScrolling`: a reset-triggered
emission carries `page = startPage`, any other emission carries the previous
emission's page plus one. -/
def epochStep {T : Type} (startPage : Int) (a b : ScrollEmit T) : Prop :=
  b.desc.page = if b.viaReset then startPage else a.desc.page + 1

/-! ### JavaScript objects and the spread `{page, size, ...params}` -/

/-- Setting a property on a JavaScript object (association list of fields):
an existing key keeps its position and gets the new value, a fresh key is
appended. -/
def objInsert : List (String × Int) → String → Int → List (String × Int)
  | [], k, v => [(k, v)]
  | (k', v') :: o, k, v =>
      if k' = k then (k, v) :: o else (k', v') :: objInsert o k v

/-- Spreading the entries `ps` into an existing object `base`, as in
`{...base, ...ps}`: each entry of `ps` is set in order, overwriting
same-named fields of `base`. -/
def objSpread (base : List (String × Int)) (ps : List (String × Int)) :
    List (String × Int) :=
  ps.foldl (fun o kv => objInsert o kv.1 kv.2) base

/-- Reading a property of a JavaScript object: the value of the first field
with the given name, if any. -/
def objLookup (k : String) : List (String × Int) → Option Int
  | [] => none
  | (k', v) :: o => if k = k' then some v else objLookup k o

/-- The object `{page, size, ...params}` built by `useScrolling`'s `map`
projection (`src/rxjs.ts` line 90): the literal starts with the `page` and
`size` fields and then spreads the reset payload over them. -/
def mkDescriptorObj (page : Int) (size : Nat) (params : List (String × Int)) :
    List (String × Int) :=
  objSpread [("page", page), ("size", (size : Int))] params

/-- The object described by the spec's words ("spreads the most recent reset
payload's fields, then overwrites with `page` and `size`"), i.e.
`{...params, page, size}` — stated for comparison with `mkDescriptorObj`. -/
def specDescriptorObj (page : Int) (size : Nat) (params : List (String × Int)) :
    List (String × Int) :=
  objSpread (objSpread [] params) [("page", page), ("size", (size : Int))]

/-! ### The load-more engine `switchLoadMore` -/

/-- The closure state of one `switchLoadMore` call (`defaultItems`, `data`,
`prevPage`) together with the `switchMap` bookkeeping: `pending` is the
identifier of the currently subscribed inner fetch (if any) and `nextId`
counts how many fetches have been dispatched so far (each dispatched fetch
gets a fresh identifier). -/
structure LMState (D : Type) where
  defaultItems : List (Option D)
  data : List (Option D)
  prevPage : Option Int
  pending : Option Nat
  nextId : Nat
deriving DecidableEq

/-- The initial closure state: empty buffers and `prevPage = Infinity`
(modelled as `none`, the value every page number compares `≤` against). -/
def LMState.init {D : Type} : LMState D := ⟨[], [], none, none, 0⟩

/-- The comparison `p.page <= prevPage` with `prevPage` initialised to
`Infinity` (`none`). -/
def pageLEPrev (page : Int) : Option Int → Bool
  | none => true
  | some q => if page ≤ q then true else false

/-- An event seen by the piped `switchLoadMore` operator: arrival of an
upstream descriptor, or the settlement (single emission + completion, or
error) of the fetch with the given identifier. -/
inductive LMEvent (T D : Type) where
  | arrive (p : Desc T)
  | resolve (fid : Nat) (res : List D)
  | fail (fid : Nat)

/-- The `tap` stage of `switchLoadMore` (`src/rxjs.ts` lines 113–123): on a
new epoch (`p.page <= prevPage`) rebuild `defaultItems` — `p.size` copies of
`undefined` when `usePadNil` is set and `p.size` is truthy, else `[]` — and
reset `data` to it; in all cases record `prevPage = p.page`. -/
def lmTap {T D : Type} (usePadNil : Bool) (s : LMState D) (p : Desc T) :
    LMState D :=
  if pageLEPrev p.page s.prevPage then
    { s with
      defaultItems :=
        if usePadNil && p.size != 0 then List.replicate p.size none else []
      data :=
        if usePadNil && p.size != 0 then List.replicate p.size none else []
      prevPage := some p.page }
  else { s with prevPage := some p.page }

/-- The `filter` stage of `switchLoadMore` (`src/rxjs.ts` lines 124–126):
`!!p.size && data.length % p.size === 0`. -/
def lmAdmit {T D : Type} (s : LMState D) (p : Desc T) : Bool :=
  p.size != 0 && s.data.length % p.size == 0

/-- One delivery step of `switchLoadMore loadMoreFn usePadNil`.

An arriving descriptor runs `tap`, then the admission `filter`; if admitted,
`switchMap` unsubscribes any pending inner observable and subscribes
`merge(of(data), loadMoreFn(v).pipe(map ...)).pipe(catchError(() => of([])))`,
whose `of(data)` part emits the current buffer immediately — so the step
installs a fresh pending fetch identifier and emits the snapshot.

A `resolve`/`fail` event for the pending identifier is the settlement of the
subscribed inner fetch: on success the `map` projection rebuilds
`data = [...data.filter(notNil), ...res]` and emits it; on error `catchError`
emits `[]` and leaves the closure variables untouched.  An event for any other
identifier belongs to an unsubscribed (cancelled) fetch and is never
delivered. -/
def switchLoadMoreStep {T D : Type} (usePadNil : Bool) (s : LMState D) :
    LMEvent T D → LMState D × List (List (Option D))
  | .arrive p =>
      if lmAdmit (lmTap usePadNil s p) p then
        ({ lmTap usePadNil s p with
            pending := some (lmTap usePadNil s p).nextId
            nextId := (lmTap usePadNil s p).nextId + 1 },
          [(lmTap usePadNil s p).data])
      else (lmTap usePadNil s p, [])
  | .resolve fid res =>
      if s.pending = some fid then
        ({ s with data := s.data.filter notNil ++ res.map some, pending := none },
          [s.data.filter notNil ++ res.map some])
      else (s, [])
  | .fail fid =>
      if s.pending = some fid then
        ({ s with pending := none }, [[]])
      else (s, [])

/-- Run `switchLoadMore` over a list of events, collecting all emitted buffer
snapshots in order. -/
def switchLoadMoreRun {T D : Type} (usePadNil : Bool) :
    LMState D → List (LMEvent T D) → LMState D × List (List (Option D))
  | s, [] => (s, [])
  | s, e :: es =>
      ((switchLoadMoreRun usePadNil (switchLoadMoreStep usePadNil s e).1 es).1,
        (switchLoadMoreStep usePadNil s e).2 ++
          (switchLoadMoreRun usePadNil (switchLoadMoreStep usePadNil s e).1 es).2)

/-- The inductive invariant tying a `useScrolling` state to the trace emitted
so far: the trace is an `epochStep` chain whose first emission carries
`startPage`, the counter sits one past the last emitted page (or at
`startPage` if nothing was emitted yet), and any emission implies both
`combineLatest` slots have been filled. -/
def ScrollInv {T : Type} (startPage : Int) (s : ScrollState T)
    (tr : List (ScrollEmit T)) : Prop :=
  List.Chain' (epochStep startPage) tr
  ∧ (∀ em, tr.head? = some em → em.desc.page = startPage)
  ∧ (tr = [] → s.page = startPage)
  ∧ (∀ em, tr.getLast? = some em → s.page = em.desc.page + 1)
  ∧ (tr ≠ [] → s.scrollSeen = true ∧ s.lastReset.isSome = true)

/-! ## Helper lemmas -/

theorem lmTap_nextId {T D : Type} (u : Bool) (s : LMState D) (p : Desc T) :
    (lmTap u s p).nextId = s.nextId := by
  unfold lmTap; split <;> rfl

theorem lmTap_pending {T D : Type} (u : Bool) (s : LMState D) (p : Desc T) :
    (lmTap u s p).pending = s.pending := by
  unfold lmTap; split <;> rfl

theorem filter_notNil_eq {D : Type} (l : List (Option D)) :
    l.filter notNil = (l.filterMap id).map some := by
  induction l with
  | nil => rfl
  | cons x l ih => cases x <;> simp [notNil, List.filter_cons, List.filterMap_cons, ih]

theorem scrollInv_step {T : Type} (sp : Int) (sz : Nat) (s : ScrollState T)
    (tr : List (ScrollEmit T)) (e : ScrollEvent T) (h : ScrollInv sp s tr) :
    ScrollInv sp (useScrollingStep sp sz s e).1
      (tr ++ (useScrollingStep sp sz s e).2) := by
  obtain ⟨hch, hhead, hpe, hpl, hwarm⟩ := h
  cases e with
  | reset t =>
      cases hss : s.scrollSeen with
      | true =>
          have hred : useScrollingStep sp sz s (ScrollEvent.reset t)
              = (⟨sp + 1, some t, true⟩, [⟨⟨sp, sz, t⟩, true⟩]) := by
            simp [useScrollingStep, hss]
          rw [hred]
          refine ⟨?_, ?_, ?_, ?_, ?_⟩
          · refine List.chain'_append.mpr ⟨hch, List.chain'_singleton _, ?_⟩
            intro x hx y hy
            simp only [List.head?_cons, Option.mem_def, Option.some.injEq] at hy
            subst hy
            simp [epochStep]
          · intro em' hem'
            cases tr with
            | nil =>
                simp only [List.nil_append, List.head?_cons, Option.some.injEq] at hem'
                rw [← hem']
            | cons a tl =>
                simp only [List.cons_append, List.head?_cons, Option.some.injEq] at hem'
                exact hem' ▸ hhead a rfl
          · intro habs
            exact absurd habs (by simp)
          · intro em' hl
            rw [List.getLast?_concat] at hl
            cases hl
            rfl
          · intro _
            exact ⟨rfl, rfl⟩
      | false =>
          have hred : useScrollingStep sp sz s (ScrollEvent.reset t)
              = (⟨sp, some t, false⟩, []) := by
            simp [useScrollingStep, hss]
          rw [hred, List.append_nil]
          refine ⟨hch, hhead, fun _ => rfl, ?_, ?_⟩
          · intro em' hl
            have hne : tr ≠ [] := by
              intro h0
              rw [h0] at hl
              exact absurd hl (by simp)
            exact absurd (hwarm hne).1 (by simp [hss])
          · intro hne
            exact absurd (hwarm hne).1 (by simp [hss])
  | scroll =>
      cases hlr : s.lastReset with
      | some t =>
          have hred : useScrollingStep sp sz s ScrollEvent.scroll
              = ({ s with page := s.page + 1, scrollSeen := true },
                  [⟨⟨s.page, sz, t⟩, false⟩]) := by
            simp [useScrollingStep, hlr]
          rw [hred]
          refine ⟨?_, ?_, ?_, ?_, ?_⟩
          · refine List.chain'_append.mpr ⟨hch, List.chain'_singleton _, ?_⟩
            intro x hx y hy
            simp only [List.head?_cons, Option.mem_def, Option.some.injEq] at hy
            subst hy
            simp only [epochStep, Bool.false_eq_true, if_false]
            exact hpl x hx
          · intro em' hem'
            cases tr with
            | nil =>
                simp only [List.nil_append, List.head?_cons, Option.some.injEq] at hem'
                rw [← hem']
                exact hpe rfl
            | cons a tl =>
                simp only [List.cons_append, List.head?_cons, Option.some.injEq] at hem'
                exact hem' ▸ hhead a rfl
          · intro habs
            exact absurd habs (by simp)
          · intro em' hl
            rw [List.getLast?_concat] at hl
            cases hl
            rfl
          · intro _
            exact ⟨rfl, by simp [hlr]⟩
      | none =>
          have hred : useScrollingStep sp sz s ScrollEvent.scroll
              = ({ s with scrollSeen := true }, []) := by
            simp [useScrollingStep, hlr]
          rw [hred, List.append_nil]
          refine ⟨hch, hhead, fun h0 => hpe h0, ?_, ?_⟩
          · intro em' hl
            have hne : tr ≠ [] := by
              intro h0
              rw [h0] at hl
              exact absurd hl (by simp)
            exact absurd (hwarm hne).2 (by simp [hlr])
          · intro hne
            exact absurd (hwarm hne).2 (by simp [hlr])

theorem scrollInv_run {T : Type} (sp : Int) (sz : Nat) (es : List (ScrollEvent T)) :
    ∀ (s : ScrollState T) (tr : List (ScrollEmit T)), ScrollInv sp s tr →
      ScrollInv sp (useScrollingRun sp sz s es).1
        (tr ++ (useScrollingRun sp sz s es).2) := by
  induction es with
  | nil =>
      intro s tr h
      simpa [useScrollingRun] using h
  | cons e es ih =>
      intro s tr h
      have hstep := scrollInv_step sp sz s tr e h
      have := ih (useScrollingStep sp sz s e).1
        (tr ++ (useScrollingStep sp sz s e).2) hstep
      simpa [useScrollingRun, List.append_assoc] using this

theorem useScrollingRun_append {T : Type} (sp : Int) (sz : Nat)
    (es fs : List (ScrollEvent T)) : ∀ s : ScrollState T,
    useScrollingRun sp sz s (es ++ fs)
      = ((useScrollingRun sp sz (useScrollingRun sp sz s es).1 fs).1,
          (useScrollingRun sp sz s es).2
            ++ (useScrollingRun sp sz (useScrollingRun sp sz s es).1 fs).2) := by
  induction es with
  | nil =>
      intro s
      simp [useScrollingRun]
  | cons e es ih =>
      intro s
      simp [useScrollingRun, ih, List.append_assoc]

theorem useScrollingRun_seen {T : Type} (sp : Int) (sz : Nat)
    (es : List (ScrollEvent T)) : ∀ s : ScrollState T,
    ((useScrollingRun sp sz s es).1.lastReset.isSome
        = (s.lastReset.isSome || hasReset es))
    ∧ ((useScrollingRun sp sz s es).1.scrollSeen
        = (s.scrollSeen || hasScroll es)) := by
  induction es with
  | nil =>
      intro s
      simp [useScrollingRun, hasReset, hasScroll]
  | cons e es ih =>
      intro s
      cases e with
      | reset t =>
          cases hss : s.scrollSeen with
          | true =>
              have hred : useScrollingStep sp sz s (ScrollEvent.reset t)
                  = (⟨sp + 1, some t, true⟩, [⟨⟨sp, sz, t⟩, true⟩]) := by
                simp [useScrollingStep, hss]
              have h := ih (⟨sp + 1, some t, true⟩ : ScrollState T)
              simp only [useScrollingRun, hred]
              exact ⟨by rw [h.1]; simp [hasReset, List.any_cons],
                by rw [h.2]; simp [hss, hasScroll, List.any_cons]⟩
          | false =>
              have hred : useScrollingStep sp sz s (ScrollEvent.reset t)
                  = (⟨sp, some t, false⟩, []) := by
                simp [useScrollingStep, hss]
              have h := ih (⟨sp, some t, false⟩ : ScrollState T)
              simp only [useScrollingRun, hred]
              exact ⟨by rw [h.1]; simp [hasReset, List.any_cons],
                by rw [h.2]; simp [hss, hasScroll, List.any_cons]⟩
      | scroll =>
          cases hlr : s.lastReset with
          | some t =>
              have hred : useScrollingStep sp sz s ScrollEvent.scroll
                  = ({ s with page := s.page + 1, scrollSeen := true },
                      [⟨⟨s.page, sz, t⟩, false⟩]) := by
                simp [useScrollingStep, hlr]
              have h := ih ({ s with page := s.page + 1, scrollSeen := true })
              simp only [useScrollingRun, hred]
              exact ⟨by rw [h.1]; simp [hlr, hasReset, List.any_cons],
                by rw [h.2]; simp [hasScroll, List.any_cons]⟩
          | none =>
              have hred : useScrollingStep sp sz s ScrollEvent.scroll
                  = ({ s with scrollSeen := true }, []) := by
                simp [useScrollingStep, hlr]
              have h := ih ({ s with scrollSeen := true })
              simp only [useScrollingRun, hred]
              exact ⟨by rw [h.1]; simp [hlr, hasReset, List.any_cons],
                by rw [h.2]; simp [hasScroll, List.any_cons]⟩

/-! ## Claim theorems -/

/-- C3: per-fetch failure isolation — when the pending fetch of an admitted
descriptor fails, the failure is swallowed and mapped to an emission of the
empty sequence, the closure state (`defaultItems`, `data`, `prevPage`) is left
unchanged, and the output stream keeps processing all later events normally. -/
theorem switchLoadMore_failure_isolation {T D : Type} (u : Bool) (s : LMState D)
    (fid : Nat) (rest : List (LMEvent T D)) (h : s.pending = some fid) :
    switchLoadMoreStep u s (LMEvent.fail fid : LMEvent T D)
        = ({ s with pending := none }, [[]])
    ∧ switchLoadMoreRun u s (LMEvent.fail fid :: rest)
        = ((switchLoadMoreRun u { s with pending := none } rest).1,
            [] :: (switchLoadMoreRun u { s with pending := none } rest).2) := by
  constructor
  · simp [switchLoadMoreStep, h]
  · simp [switchLoadMoreRun, switchLoadMoreStep, h]

/-- Witness for C3 at a concrete state: a fetch with identifier 0 is pending
over the buffer `[some 1]`; its failure emits `[]`, leaves the buffer intact,
and a subsequent successful page still paginates. -/
theorem switchLoadMore_failure_isolation_witness :
    switchLoadMoreStep true (⟨[], [some 1], some 1, some 0, 1⟩ : LMState Nat)
        (LMEvent.fail 0 : LMEvent Unit Nat)
        = ((⟨[], [some 1], some 1, none, 1⟩ : LMState Nat), [[]])
    ∧ switchLoadMoreRun true (⟨[], [some 1], some 1, some 0, 1⟩ : LMState Nat)
        ([LMEvent.fail 0] : List (LMEvent Unit Nat))
        = ((switchLoadMoreRun true (⟨[], [some 1], some 1, none, 1⟩ : LMState Nat)
              ([] : List (LMEvent Unit Nat))).1,
            [] :: (switchLoadMoreRun true (⟨[], [some 1], some 1, none, 1⟩ : LMState Nat)
              ([] : List (LMEvent Unit Nat))).2) :=
  switchLoadMore_failure_isolation true ⟨[], [some 1], some 1, some 0, 1⟩ 0 [] rfl

/-- C6: when the pending fetch resolves successfully with page `res`, the
buffer is recomputed as the non-placeholder (non-`nil`) items already in the
buffer, in order, followed by the items of `res`, in order, and that new
buffer is emitted. -/
theorem switchLoadMore_success_append {T D : Type} (u : Bool) (s : LMState D)
    (fid : Nat) (res : List D) (h : s.pending = some fid) :
    switchLoadMoreStep u s (LMEvent.resolve fid res : LMEvent T D)
      = ({ s with
            data := (s.data.filterMap id).map some ++ res.map some
            pending := none },
          [(s.data.filterMap id).map some ++ res.map some]) := by
  simp [switchLoadMoreStep, h, filter_notNil_eq]

/-- Witness for C6: buffer `[none, some 5]` with fetch 0 pending; resolving
with `[7]` yields buffer `[some 5, some 7]` (placeholder dropped, new items
appended in order) and emits it. -/
theorem switchLoadMore_success_append_witness :
    switchLoadMoreStep true (⟨[], [none, some 5], some 1, some 0, 1⟩ : LMState Nat)
        (LMEvent.resolve 0 [7] : LMEvent Unit Nat)
      = ((⟨[], [some 5, some 7], some 1, none, 1⟩ : LMState Nat), [[some 5, some 7]]) :=
  switchLoadMore_success_append true ⟨[], [none, some 5], some 1, some 0, 1⟩ 0 [7] rfl

/-- C7: every descriptor that passes the admission filter yields the immediate
optimistic emission of the current (post-epoch-check) buffer, and a second
emission follows once its fetch settles, whether by success or by suppressed
failure. -/
theorem switchLoadMore_emission_guarantee {T D : Type} (u : Bool) (s : LMState D)
    (p : Desc T) (res : List D) (h : lmAdmit (lmTap u s p) p = true) :
    (switchLoadMoreStep u s (LMEvent.arrive p : LMEvent T D)).2
        = [(lmTap u s p).data]
    ∧ (switchLoadMoreStep u (switchLoadMoreStep u s (LMEvent.arrive p : LMEvent T D)).1
          (LMEvent.resolve s.nextId res : LMEvent T D)).2.length = 1
    ∧ (switchLoadMoreStep u (switchLoadMoreStep u s (LMEvent.arrive p : LMEvent T D)).1
          (LMEvent.fail s.nextId : LMEvent T D)).2.length = 1 := by
  refine ⟨by simp [switchLoadMoreStep, h], ?_, ?_⟩ <;>
    simp [switchLoadMoreStep, h, lmTap_nextId]

/-- Witness for C7: the first descriptor (page 1, size 2) from the initial
state is admitted; it emits the padded snapshot `[none, none]` at once, and
both a resolution with `[7]` and a failure of fetch 0 produce exactly one
further emission. -/
theorem switchLoadMore_emission_guarantee_witness :
    (switchLoadMoreStep true (LMState.init : LMState Nat)
        (LMEvent.arrive (⟨1, 2, ()⟩ : Desc Unit))).2 = [[none, none]]
    ∧ (switchLoadMoreStep true
          (switchLoadMoreStep true (LMState.init : LMState Nat)
            (LMEvent.arrive (⟨1, 2, ()⟩ : Desc Unit))).1
          (LMEvent.resolve 0 [7] : LMEvent Unit Nat)).2.length = 1
    ∧ (switchLoadMoreStep true
          (switchLoadMoreStep true (LMState.init : LMState Nat)
            (LMEvent.arrive (⟨1, 2, ()⟩ : Desc Unit))).1
          (LMEvent.fail 0 : LMEvent Unit Nat)).2.length = 1 :=
  switchLoadMore_emission_guarantee true LMState.init ⟨1, 2, ()⟩ [7] (by decide)

/-- C2: latest-wins — if descriptor `B` is admitted while the fetch `fidA` of
an earlier admitted descriptor is still pending, `B`'s fetch (the fresh
identifier `s.nextId`) replaces `fidA` as the sole subscribed fetch; a late
settlement of `fidA` is discarded (no state change, no emission), while the
settlement of `B`'s fetch is the one merged into the buffer. -/
theorem switchLoadMore_latest_wins {T D : Type} (u : Bool) (s : LMState D)
    (fidA : Nat) (B : Desc T) (res resB : List D)
    (hA : s.pending = some fidA) (hfresh : fidA < s.nextId)
    (hadm : lmAdmit (lmTap u s B) B = true) :
    (switchLoadMoreStep u s (LMEvent.arrive B : LMEvent T D)).1.pending
        = some s.nextId
    ∧ switchLoadMoreStep u
          (switchLoadMoreStep u s (LMEvent.arrive B : LMEvent T D)).1
          (LMEvent.resolve fidA res : LMEvent T D)
        = ((switchLoadMoreStep u s (LMEvent.arrive B : LMEvent T D)).1, [])
    ∧ (switchLoadMoreStep u
          (switchLoadMoreStep u s (LMEvent.arrive B : LMEvent T D)).1
          (LMEvent.resolve s.nextId resB : LMEvent T D)).1.data
        = (switchLoadMoreStep u s (LMEvent.arrive B : LMEvent T D)).1.data.filter notNil
            ++ resB.map some := by
  have hne : fidA ≠ s.nextId := Nat.ne_of_lt hfresh
  refine ⟨by simp [switchLoadMoreStep, hadm, lmTap_nextId], ?_, ?_⟩ <;>
    simp [switchLoadMoreStep, hadm, lmTap_nextId, hne, Ne.symm hne]

/-- Witness for C2: fetch 0 (descriptor A) is pending over buffer
`[some 1, some 2]`; descriptor `B` (page 2, size 2) is admitted, installing
fetch 1; a late resolution of fetch 0 with `[7]` is discarded, while fetch 1's
resolution with `[8, 9]` appends to the buffer. -/
theorem switchLoadMore_latest_wins_witness :
    (switchLoadMoreStep true (⟨[], [some 1, some 2], some 1, some 0, 1⟩ : LMState Nat)
        (LMEvent.arrive (⟨2, 2, ()⟩ : Desc Unit))).1.pending = some 1
    ∧ switchLoadMoreStep true
          (switchLoadMoreStep true
            (⟨[], [some 1, some 2], some 1, some 0, 1⟩ : LMState Nat)
            (LMEvent.arrive (⟨2, 2, ()⟩ : Desc Unit))).1
          (LMEvent.resolve 0 [7] : LMEvent Unit Nat)
        = ((switchLoadMoreStep true
              (⟨[], [some 1, some 2], some 1, some 0, 1⟩ : LMState Nat)
              (LMEvent.arrive (⟨2, 2, ()⟩ : Desc Unit))).1, [])
    ∧ (switchLoadMoreStep true
          (switchLoadMoreStep true
            (⟨[], [some 1, some 2], some 1, some 0, 1⟩ : LMState Nat)
            (LMEvent.arrive (⟨2, 2, ()⟩ : Desc Unit))).1
          (LMEvent.resolve 1 [8, 9] : LMEvent Unit Nat)).1.data
        = (switchLoadMoreStep true
            (⟨[], [some 1, some 2], some 1, some 0, 1⟩ : LMState Nat)
            (LMEvent.arrive (⟨2, 2, ()⟩ : Desc Unit))).1.data.filter notNil
            ++ [8, 9].map some :=
  switchLoadMore_latest_wins true ⟨[], [some 1, some 2], some 1, some 0, 1⟩ 0
    ⟨2, 2, ()⟩ [7] [8, 9] rfl (by decide) (by decide)

/-- C1 (counterexample): the admission gate does not prevent starting a new
fetch while the buffer still holds unresolved placeholders from an in-flight
page.  After the first descriptor (page 1, size 2) is admitted from the
initial state, fetch 0 is still pending and the buffer is the two unresolved
placeholders `[none, none]` — yet the next descriptor (page 2, size 2) passes
the gate (length 2 is a multiple of 2) and dispatches fetch 1. -/
theorem switchLoadMore_gate_counterexample :
    (switchLoadMoreRun true (LMState.init : LMState Nat)
        ([LMEvent.arrive ⟨1, 2, ()⟩] : List (LMEvent Unit Nat))).1.pending = some 0
    ∧ (switchLoadMoreRun true (LMState.init : LMState Nat)
        ([LMEvent.arrive ⟨1, 2, ()⟩] : List (LMEvent Unit Nat))).1.data = [none, none]
    ∧ (switchLoadMoreStep true
        (switchLoadMoreRun true (LMState.init : LMState Nat)
          ([LMEvent.arrive ⟨1, 2, ()⟩] : List (LMEvent Unit Nat))).1
        (LMEvent.arrive (⟨2, 2, ()⟩ : Desc Unit))).1.nextId = 2
    ∧ (switchLoadMoreStep true
        (switchLoadMoreRun true (LMState.init : LMState Nat)
          ([LMEvent.arrive ⟨1, 2, ()⟩] : List (LMEvent Unit Nat))).1
        (LMEvent.arrive (⟨2, 2, ()⟩ : Desc Unit))).1.pending = some 1 := by
  refine ⟨rfl, rfl, rfl, rfl⟩

/-- C1 (amended): an arriving descriptor dispatches a fetch (equivalently,
produces its optimistic emission) precisely when `size > 0` and the
post-epoch-check buffer length is an exact multiple of `size`; when a fetch is
dispatched it becomes the sole pending fetch, replacing (cancelling) any
previously pending one — overlap is prevented by this switch, not by the
gate, which does admit descriptors while the buffer consists of placeholders
from an in-flight page. -/
theorem switchLoadMore_dispatch_iff_gate {T D : Type} (u : Bool) (s : LMState D)
    (p : Desc T) :
    ((switchLoadMoreStep u s (LMEvent.arrive p : LMEvent T D)).1.nextId
        = s.nextId + 1
      ↔ (p.size ≠ 0 ∧ (lmTap u s p).data.length % p.size = 0))
    ∧ ((switchLoadMoreStep u s (LMEvent.arrive p : LMEvent T D)).2 ≠ []
      ↔ (p.size ≠ 0 ∧ (lmTap u s p).data.length % p.size = 0))
    ∧ ((switchLoadMoreStep u s (LMEvent.arrive p : LMEvent T D)).1.nextId
        = s.nextId + 1
      → (switchLoadMoreStep u s (LMEvent.arrive p : LMEvent T D)).1.pending
          = some s.nextId) := by
  have hgate : lmAdmit (lmTap u s p) p = true
      ↔ (p.size ≠ 0 ∧ (lmTap u s p).data.length % p.size = 0) := by
    simp [lmAdmit]
  cases hadm : lmAdmit (lmTap u s p) p with
  | true =>
      refine ⟨?_, ?_, ?_⟩ <;>
        simp [switchLoadMoreStep, hadm, lmTap_nextId, hgate.mp hadm]
  | false =>
      have hng : ¬ (p.size ≠ 0 ∧ (lmTap u s p).data.length % p.size = 0) := by
        intro hc
        exact absurd (hgate.mpr hc) (by simp [hadm])
      refine ⟨?_, ?_, ?_⟩ <;>
        simp [switchLoadMoreStep, hadm, lmTap_nextId, hng]

/-- Witness for the amended C1 at the initial state and descriptor
(page 1, size 2): the fetch is dispatched, the gate condition holds, and the
dispatched fetch 0 becomes the pending one. -/
theorem switchLoadMore_dispatch_iff_gate_witness :
    ((switchLoadMoreStep true (LMState.init : LMState Nat)
        (LMEvent.arrive (⟨1, 2, ()⟩ : Desc Unit))).1.nextId = 1
      ↔ ((2 : Nat) ≠ 0
          ∧ (lmTap true (LMState.init : LMState Nat) (⟨1, 2, ()⟩ : Desc Unit)).data.length
              % 2 = 0))
    ∧ ((switchLoadMoreStep true (LMState.init : LMState Nat)
        (LMEvent.arrive (⟨1, 2, ()⟩ : Desc Unit))).2 ≠ []
      ↔ ((2 : Nat) ≠ 0
          ∧ (lmTap true (LMState.init : LMState Nat) (⟨1, 2, ()⟩ : Desc Unit)).data.length
              % 2 = 0))
    ∧ ((switchLoadMoreStep true (LMState.init : LMState Nat)
        (LMEvent.arrive (⟨1, 2, ()⟩ : Desc Unit))).1.nextId = 1
      → (switchLoadMoreStep true (LMState.init : LMState Nat)
          (LMEvent.arrive (⟨1, 2, ()⟩ : Desc Unit))).1.pending = some 0) :=
  switchLoadMore_dispatch_iff_gate true LMState.init ⟨1, 2, ()⟩

/-- C9: once the buffer length is not a multiple of the page size (as a short
page leaves it), every later descriptor of the same epoch — same size,
strictly increasing page numbers — is rejected by the admission filter: no
fetch is dispatched (the fetch counter and pending fetch are untouched),
nothing is emitted, and the buffer and padding template are unchanged. -/
theorem switchLoadMore_short_page_blocks {T D : Type} (u : Bool) (s : LMState D)
    (q : Int) (n : Nat) (ds : List (Desc T))
    (hq : s.prevPage = some q) (hn : n ≠ 0) (hlen : s.data.length % n ≠ 0)
    (hs : ∀ d ∈ ds, d.size = n)
    (hchain : List.Chain (fun a b => a < b) q (ds.map Desc.page)) :
    (switchLoadMoreRun u s (ds.map LMEvent.arrive)).2 = []
    ∧ (switchLoadMoreRun u s (ds.map LMEvent.arrive)).1.data = s.data
    ∧ (switchLoadMoreRun u s (ds.map LMEvent.arrive)).1.defaultItems = s.defaultItems
    ∧ (switchLoadMoreRun u s (ds.map LMEvent.arrive)).1.pending = s.pending
    ∧ (switchLoadMoreRun u s (ds.map LMEvent.arrive)).1.nextId = s.nextId := by
  induction ds generalizing s q with
  | nil => exact ⟨rfl, rfl, rfl, rfl, rfl⟩
  | cons d ds ih =>
      rw [List.map_cons, List.chain_cons] at hchain
      obtain ⟨hlt, hch⟩ := hchain
      have hdsize : d.size = n := hs d (List.mem_cons_self d ds)
      have hpp : pageLEPrev d.page s.prevPage = false := by
        rw [hq]
        simp only [pageLEPrev]
        simp [Int.not_le.mpr hlt]
      have htap : lmTap u s d = { s with prevPage := some d.page } := by
        unfold lmTap
        rw [hpp]
        simp
      have hadm : lmAdmit ({ s with prevPage := some d.page } : LMState D) d = false := by
        simp only [lmAdmit]
        simp [hdsize, hlen]
      have hstep : switchLoadMoreStep u s (LMEvent.arrive d : LMEvent T D)
          = ({ s with prevPage := some d.page }, []) := by
        simp [switchLoadMoreStep, htap, hadm]
      have ihs := ih { s with prevPage := some d.page } d.page rfl hlen
        (fun e he => hs e (List.mem_cons_of_mem d he)) hch
      simp only [List.map_cons, switchLoadMoreRun, hstep]
      simpa using ihs

/-- Witness for C9: a buffer of odd length 1 with page size 2 and
`prevPage = 1`; the descriptors for pages 2 and 3 are both rejected — no
emission, no fetch, state untouched. -/
theorem switchLoadMore_short_page_blocks_witness :
    (switchLoadMoreRun true (⟨[], [some 5], some 1, none, 3⟩ : LMState Nat)
        (([⟨2, 2, ()⟩, ⟨3, 2, ()⟩] : List (Desc Unit)).map LMEvent.arrive)).2 = []
    ∧ (switchLoadMoreRun true (⟨[], [some 5], some 1, none, 3⟩ : LMState Nat)
        (([⟨2, 2, ()⟩, ⟨3, 2, ()⟩] : List (Desc Unit)).map LMEvent.arrive)).1.data
        = [some 5]
    ∧ (switchLoadMoreRun true (⟨[], [some 5], some 1, none, 3⟩ : LMState Nat)
        (([⟨2, 2, ()⟩, ⟨3, 2, ()⟩] : List (Desc Unit)).map LMEvent.arrive)).1.defaultItems
        = []
    ∧ (switchLoadMoreRun true (⟨[], [some 5], some 1, none, 3⟩ : LMState Nat)
        (([⟨2, 2, ()⟩, ⟨3, 2, ()⟩] : List (Desc Unit)).map LMEvent.arrive)).1.pending
        = none
    ∧ (switchLoadMoreRun true (⟨[], [some 5], some 1, none, 3⟩ : LMState Nat)
        (([⟨2, 2, ()⟩, ⟨3, 2, ()⟩] : List (Desc Unit)).map LMEvent.arrive)).1.nextId
        = 3 :=
  switchLoadMore_short_page_blocks true ⟨[], [some 5], some 1, none, 3⟩ 1 2
    [⟨2, 2, ()⟩, ⟨3, 2, ()⟩] rfl (by decide) (by decide) (by decide)
    (by
      simp only [List.map_cons, List.map_nil]
      exact List.Chain.cons (by decide) (List.Chain.cons (by decide) List.Chain.nil))

/-- C10: when every arriving descriptor has `size = 0`, `switchLoadMore`
never emits and never dispatches a fetch, and every epoch initialisation
builds an empty placeholder template even when padding is enabled (the
buffer and template stay `[]` throughout). -/
theorem switchLoadMore_size_zero_silent {T D : Type} (u : Bool) (s : LMState D)
    (es : List (LMEvent T D))
    (hdi : s.defaultItems = []) (hd : s.data = []) (hp : s.pending = none)
    (hn : s.nextId = 0)
    (hz : ∀ p : Desc T, LMEvent.arrive (p := p) ∈ es → p.size = 0) :
    (switchLoadMoreRun u s es).2 = []
    ∧ (switchLoadMoreRun u s es).1.defaultItems = []
    ∧ (switchLoadMoreRun u s es).1.data = []
    ∧ (switchLoadMoreRun u s es).1.pending = none
    ∧ (switchLoadMoreRun u s es).1.nextId = 0 := by
  induction es generalizing s with
  | nil => exact ⟨rfl, hdi, hd, hp, hn⟩
  | cons e es ih =>
      cases e with
      | arrive p =>
          have hzp : p.size = 0 := hz p (List.mem_cons_self _ _)
          have htap : (lmTap u s p).defaultItems = [] ∧ (lmTap u s p).data = []
              ∧ (lmTap u s p).pending = none ∧ (lmTap u s p).nextId = 0 := by
            unfold lmTap
            split <;> simp [hzp, hdi, hd, hp, hn]
          have hadm : lmAdmit (lmTap u s p) p = false := by
            simp [lmAdmit, hzp]
          have hstep : switchLoadMoreStep u s (LMEvent.arrive p : LMEvent T D)
              = (lmTap u s p, []) := by
            simp [switchLoadMoreStep, hadm]
          have ihs := ih (lmTap u s p) htap.1 htap.2.1 htap.2.2.1 htap.2.2.2
            (fun r hr => hz r (List.mem_cons_of_mem _ hr))
          simp only [switchLoadMoreRun, hstep]
          simpa using ihs
      | resolve fid res =>
          have hstep : switchLoadMoreStep u s (LMEvent.resolve fid res : LMEvent T D)
              = (s, []) := by
            simp [switchLoadMoreStep, hp]
          have ihs := ih s hdi hd hp hn (fun r hr => hz r (List.mem_cons_of_mem _ hr))
          simp only [switchLoadMoreRun, hstep]
          simpa using ihs
      | fail fid =>
          have hstep : switchLoadMoreStep u s (LMEvent.fail fid : LMEvent T D)
              = (s, []) := by
            simp [switchLoadMoreStep, hp]
          have ihs := ih s hdi hd hp hn (fun r hr => hz r (List.mem_cons_of_mem _ hr))
          simp only [switchLoadMoreRun, hstep]
          simpa using ihs

/-- Witness for C10: two size-0 descriptors (pages 1 and 2) with padding
enabled, plus a stray resolution event: nothing is emitted, no fetch is ever
dispatched, and template and buffer stay empty. -/
theorem switchLoadMore_size_zero_silent_witness :
    (switchLoadMoreRun true (LMState.init : LMState Nat)
        ([LMEvent.arrive ⟨1, 0, ()⟩, LMEvent.resolve 0 [7], LMEvent.arrive ⟨2, 0, ()⟩]
          : List (LMEvent Unit Nat))).2 = []
    ∧ (switchLoadMoreRun true (LMState.init : LMState Nat)
        ([LMEvent.arrive ⟨1, 0, ()⟩, LMEvent.resolve 0 [7], LMEvent.arrive ⟨2, 0, ()⟩]
          : List (LMEvent Unit Nat))).1.defaultItems = []
    ∧ (switchLoadMoreRun true (LMState.init : LMState Nat)
        ([LMEvent.arrive ⟨1, 0, ()⟩, LMEvent.resolve 0 [7], LMEvent.arrive ⟨2, 0, ()⟩]
          : List (LMEvent Unit Nat))).1.data = []
    ∧ (switchLoadMoreRun true (LMState.init : LMState Nat)
        ([LMEvent.arrive ⟨1, 0, ()⟩, LMEvent.resolve 0 [7], LMEvent.arrive ⟨2, 0, ()⟩]
          : List (LMEvent Unit Nat))).1.pending = none
    ∧ (switchLoadMoreRun true (LMState.init : LMState Nat)
        ([LMEvent.arrive ⟨1, 0, ()⟩, LMEvent.resolve 0 [7], LMEvent.arrive ⟨2, 0, ()⟩]
          : List (LMEvent Unit Nat))).1.nextId = 0 :=
  switchLoadMore_size_zero_silent true LMState.init
    [LMEvent.arrive ⟨1, 0, ()⟩, LMEvent.resolve 0 [7], LMEvent.arrive ⟨2, 0, ()⟩]
    rfl rfl rfl rfl
    (by
      intro p hp
      simp only [List.mem_cons] at hp
      rcases hp with h | h | h
      · cases h; rfl
      · exact absurd h (by simp)
      · rcases h with h | h
        · cases h; rfl
        · exact absurd h (by simp))

/-- C4: for every sequence of reset/scroll events, the page values of the
descriptors emitted by `useScrolling` follow the epoch discipline — the first
emission carries `startPage`, and each subsequent emission carries
`startPage` exactly when a reset emission is its trigger, and the previous
emission's page plus one otherwise; hence within one epoch the pages are the
strictly increasing run `startPage, startPage + 1, startPage + 2, ...`. -/
theorem useScrolling_pages_per_epoch {T : Type} (sp : Int) (sz : Nat)
    (es : List (ScrollEvent T)) :
    List.Chain' (epochStep sp)
        (useScrollingRun sp sz (useScrollingInit sp) es).2
    ∧ ∀ em, ((useScrollingRun sp sz (useScrollingInit sp) es).2).head? = some em
        → em.desc.page = sp := by
  have hinit : ScrollInv sp (useScrollingInit sp : ScrollState T) [] := by
    refine ⟨List.chain'_nil, ?_, fun _ => rfl, ?_, ?_⟩
    · intro em h
      exact absurd h (by simp)
    · intro em h
      exact absurd h (by simp)
    · intro h
      exact absurd rfl h
  have h := scrollInv_run sp sz es (useScrollingInit sp) [] hinit
  rw [List.nil_append] at h
  exact ⟨h.1, h.2.1⟩

/-- Witness for C4 on the concrete trace reset, scroll, scroll, reset,
scroll (pages 1, 2, then reset to 1, then 2). -/
theorem useScrolling_pages_per_epoch_witness :
    List.Chain' (epochStep 1)
        (useScrollingRun 1 2 (useScrollingInit 1 : ScrollState Unit)
          [ScrollEvent.reset (), ScrollEvent.scroll, ScrollEvent.scroll,
            ScrollEvent.reset (), ScrollEvent.scroll]).2
    ∧ ∀ em, ((useScrollingRun 1 2 (useScrollingInit 1 : ScrollState Unit)
          [ScrollEvent.reset (), ScrollEvent.scroll, ScrollEvent.scroll,
            ScrollEvent.reset (), ScrollEvent.scroll]).2).head? = some em
        → em.desc.page = 1 :=
  useScrolling_pages_per_epoch 1 2
    [ScrollEvent.reset (), ScrollEvent.scroll, ScrollEvent.scroll,
      ScrollEvent.reset (), ScrollEvent.scroll]

/-- C8: `useScrolling` produces exactly one combined output descriptor for an
input event precisely when, counting that event, each of its two input
streams has produced at least one value — the `combineLatest` warm-up
condition; before both slots are filled an event produces nothing. -/
theorem useScrolling_emits_when_both_ready {T : Type} (sp : Int) (sz : Nat)
    (es : List (ScrollEvent T)) (e : ScrollEvent T) :
    ((useScrollingRun sp sz (useScrollingInit sp : ScrollState T) (es ++ [e])).2).length
      = ((useScrollingRun sp sz (useScrollingInit sp : ScrollState T) es).2).length
        + (if hasReset (es ++ [e]) && hasScroll (es ++ [e]) then 1 else 0) := by
  have hseen := useScrollingRun_seen sp sz es (useScrollingInit sp : ScrollState T)
  have hr : (useScrollingRun sp sz (useScrollingInit sp : ScrollState T) es).1.lastReset.isSome
      = hasReset es := by
    simpa [useScrollingInit] using hseen.1
  have hsc : (useScrollingRun sp sz (useScrollingInit sp : ScrollState T) es).1.scrollSeen
      = hasScroll es := by
    simpa [useScrollingInit] using hseen.2
  rw [useScrollingRun_append]
  simp only [List.length_append]
  congr 1
  cases e with
  | reset t =>
      have h1 : hasReset (es ++ [ScrollEvent.reset t]) = true := by
        simp [hasReset, List.any_append, List.any_cons]
      have h2 : hasScroll (es ++ [ScrollEvent.reset t]) = hasScroll es := by
        simp [hasScroll, List.any_append, List.any_cons]
      rw [h1, h2]
      cases hscr : hasScroll es with
      | true =>
          have hs1 : (useScrollingRun sp sz (useScrollingInit sp : ScrollState T) es).1.scrollSeen
              = true := by rw [hsc, hscr]
          simp [useScrollingRun, useScrollingStep, hs1]
      | false =>
          have hs1 : (useScrollingRun sp sz (useScrollingInit sp : ScrollState T) es).1.scrollSeen
              = false := by rw [hsc, hscr]
          simp [useScrollingRun, useScrollingStep, hs1]
  | scroll =>
      have h1 : hasScroll (es ++ [ScrollEvent.scroll]) = true := by
        simp [hasScroll, List.any_append, List.any_cons]
      have h2 : hasReset (es ++ [ScrollEvent.scroll]) = hasReset es := by
        simp [hasReset, List.any_append, List.any_cons]
      rw [h1, h2]
      cases hlr : (useScrollingRun sp sz (useScrollingInit sp : ScrollState T) es).1.lastReset with
      | some t' =>
          have hrr : hasReset es = true := by rw [← hr]; simp [hlr]
          simp [useScrollingRun, useScrollingStep, hlr, hrr]
      | none =>
          have hrr : hasReset es = false := by rw [← hr]; simp [hlr]
          simp [useScrollingRun, useScrollingStep, hlr, hrr]

theorem objLookup_objInsert (o : List (String × Int)) (k k' : String) (v : Int) :
    objLookup k (objInsert o k' v) = if k = k' then some v else objLookup k o := by
  induction o with
  | nil =>
      by_cases hk : k = k' <;> simp [objInsert, objLookup, hk]
  | cons ab o ih =>
      obtain ⟨a, b⟩ := ab
      by_cases ha : a = k'
      · subst ha
        by_cases hk : k = a <;> simp [objInsert, objLookup, hk]
      · by_cases hk : k = a
        · subst hk
          simp [objInsert, objLookup, ha, Ne.symm ha]
        · simp [objInsert, objLookup, ha, hk, ih]

theorem objLookup_append (k : String) (l₁ l₂ : List (String × Int)) :
    objLookup k (l₁ ++ l₂) = (objLookup k l₁).or (objLookup k l₂) := by
  induction l₁ with
  | nil => simp [objLookup]
  | cons ab l₁ ih =>
      obtain ⟨a, b⟩ := ab
      by_cases hk : k = a <;> simp [objLookup, hk, ih]

theorem objLookup_objSpread (k : String) : ∀ ps base : List (String × Int),
    objLookup k (objSpread base ps)
      = (objLookup k ps.reverse).or (objLookup k base) := by
  intro ps
  induction ps with
  | nil =>
      intro base
      simp [objSpread, objLookup]
  | cons ab ps ih =>
      intro base
      obtain ⟨a, b⟩ := ab
      have h1 : objSpread base ((a, b) :: ps) = objSpread (objInsert base a b) ps := rfl
      rw [h1, ih (objInsert base a b), List.reverse_cons, objLookup_append,
        objLookup_objInsert]
      cases objLookup k ps.reverse with
      | some v => simp
      | none => by_cases hk : k = a <;> simp [objLookup, hk]

/-- C5 (counterexample): after a reset whose payload itself has a `page`
field (value 5), the first emitted descriptor of `useScrolling 1 2` has the
tracker's page counter 1, but the object built by `{page, size, ...params}`
carries `page ↦ 5` — the payload's field overwrites the tracker's, not the
other way round as the claim states (the spec-ordered object
`{...params, page, size}` would carry `page ↦ 1`). -/
theorem useScrolling_overwrite_counterexample :
    (useScrollingRun 1 2 (useScrollingInit 1 : ScrollState (List (String × Int)))
        [ScrollEvent.reset [("page", 5)], ScrollEvent.scroll]).2
      = [⟨⟨1, 2, [("page", 5)]⟩, false⟩]
    ∧ objLookup "page" (mkDescriptorObj 1 2 [("page", 5)]) = some 5
    ∧ objLookup "page" (specDescriptorObj 1 2 [("page", 5)]) = some 1
    ∧ ((5 : Int) ≠ 1) := by
  exact ⟨rfl, by decide, by decide, by decide⟩

/-- C5 (amended): the descriptor built by `useScrolling` consists of the
tracker's `page` and `size` fields with the reset payload's fields
overwriting any same-named field — a field reads from the payload (last
binding wins) when the payload has it, and from the tracker's
`page`/`size` pair only otherwise. -/
theorem useScrolling_descriptor_fields (page : Int) (size : Nat)
    (params : List (String × Int)) (k : String) :
    objLookup k (mkDescriptorObj page size params)
      = (objLookup k params.reverse).or
          (objLookup k [("page", page), ("size", (size : Int))]) :=
  objLookup_objSpread k params [("page", page), ("size", (size : Int))]

end Rxjs
